import Mathlib

/-!
Verification of the print-wrapping tool (`wrap_debug_prints.py`).

A source file is modelled as a list of lines, each line a list of
characters (trailing newline included, as produced by `readlines`).
The definitions below are direct shallow embeddings of the Python
functions `is_already_wrapped`, `find_print_end`, `get_indentation`
and the in-memory rewriting loop of `wrap_prints_in_file`.
Definitions whose name contains `spec` are instead modelled from the
specification's words, for comparison with the code.
-/

namespace WrapDebug

abbrev Line := List Char

/-- Whitespace characters stripped by Python `str.strip` and matched by `\s`. -/
def isPySpace (c : Char) : Bool :=
  c = ' ' || c = '\t' || c = '\n' || c = '\r' || c = '\x0b' || c = '\x0c'

/-- Python `line.lstrip()`. -/
def pyLstrip (l : Line) : Line := l.dropWhile isPySpace

/-- Python `line.rstrip()`. -/
def pyRstrip (l : Line) : Line := (l.reverse.dropWhile isPySpace).reverse

/-- Python `line.strip()`. -/
def pyStrip (l : Line) : Line := pyRstrip (pyLstrip l)

/-- `get_indentation`: `len(line) - len(line.lstrip())`. -/
def get_indentation (l : Line) : Nat := l.length - (pyLstrip l).length

/-- Guard-open marker text `#if DEBUG`. -/
def openTok : List Char := "#if DEBUG".toList

/-- Guard-close marker text `#endif`. -/
def closeTok : List Char := "#endif".toList

/-- Does the stripped line start with `#if DEBUG`? -/
def openStripped (s : List Char) : Bool := openTok.isPrefixOf s

/-- Does the stripped line start with `#endif`? -/
def closeStripped (s : List Char) : Bool := closeTok.isPrefixOf s

/-- The declaration-boundary test of `is_already_wrapped`:
`line.startswith('func ')` etc., on the already-stripped line. -/
def declStripped (s : List Char) : Bool :=
  ("func ".toList).isPrefixOf s || ("var ".toList).isPrefixOf s ||
  ("let ".toList).isPrefixOf s || ("class ".toList).isPrefixOf s ||
  ("struct ".toList).isPrefixOf s

/-- Line `i` of the file is a guard-open marker line. -/
def openAt (lines : List Line) (i : Nat) : Bool := openStripped (pyStrip (lines.getD i []))

/-- Line `i` of the file is a guard-close marker line. -/
def closeAt (lines : List Line) (i : Nat) : Bool := closeStripped (pyStrip (lines.getD i []))

/-- Line `i` of the file is a declaration-boundary line. -/
def declAt (lines : List Line) (i : Nat) : Bool := declStripped (pyStrip (lines.getD i []))

/-- Indices visited by the backward scan of `is_already_wrapped`:
Python `range(line_idx - 1, max(0, line_idx - 10), -1)` (descending,
stop exclusive). -/
def backIndices (line_idx : Nat) : List Nat :=
  (List.range' ((line_idx - 10) + 1) ((line_idx - 1) - (line_idx - 10))).reverse

/-- Indices visited by the forward scan of `is_already_wrapped`:
Python `range(line_idx + 1, min(len(lines), line_idx + 10))`. -/
def fwdIndices (len line_idx : Nat) : List Nat :=
  List.range' (line_idx + 1) (min len (line_idx + 10) - (line_idx + 1))

/-- The inner forward loop of `is_already_wrapped`: is there a line whose
stripped text starts with `#endif` in the forward window? -/
def hasEndifAfter (lines : List Line) (line_idx : Nat) : Bool :=
  (fwdIndices lines.length line_idx).any (fun j => closeAt lines j)

/-- The backward loop of `is_already_wrapped` over a list of indices:
on a `#if DEBUG` line with a `#endif` in the forward window return `true`;
on a declaration line stop with `false`; otherwise continue. -/
def wrappedScan (lines : List Line) (line_idx : Nat) : List Nat → Bool
  | [] => false
  | i :: rest =>
    let s := pyStrip (lines.getD i [])
    if openStripped s && hasEndifAfter lines line_idx then true
    else if declStripped s then false
    else wrappedScan lines line_idx rest

/-- `is_already_wrapped(lines, line_idx)` from the source. -/
def is_already_wrapped (lines : List Line) (line_idx : Nat) : Bool :=
  wrappedScan lines line_idx (backIndices line_idx)

/-- Scanner state of `find_print_end`: `paren_count`, `in_string`,
`escape_next`. -/
structure ScanState where
  paren : Int
  inStr : Bool
  esc : Bool
deriving DecidableEq, Repr

/-- Initial scanner state of `find_print_end`. -/
def initScan : ScanState := ⟨0, false, false⟩

/-- One character step of `find_print_end`'s inner loop.  The `Bool`
is `true` when the Python code executes `return idx` at this character
(depth returned to exactly zero on a `)` outside a string). -/
def charStep (st : ScanState) (c : Char) : ScanState × Bool :=
  if st.esc then ({ st with esc := false }, false)
  else if c = '\\' then ({ st with esc := true }, false)
  else if c = '"' && !st.inStr then ({ st with inStr := true }, false)
  else if c = '"' && st.inStr then ({ st with inStr := false }, false)
  else if !st.inStr then
    if c = '(' then ({ st with paren := st.paren + 1 }, false)
    else if c = ')' then ({ st with paren := st.paren - 1 }, st.paren - 1 == 0)
    else (st, false)
  else (st, false)

/-- Scan one line's characters; `none` means the Python code returned
(the depth hit zero) during this line, `some st` is the state after the
full line. -/
def lineScan (st : ScanState) : List Char → Option ScanState
  | [] => some st
  | c :: cs =>
    match charStep st c with
    | (_, true) => none
    | (st', false) => lineScan st' cs

/-- The line loop of `find_print_end`, iterating over the suffix of the
file starting at index `idx`; falls through to `start` at end of input. -/
def findEndGo (start : Nat) (st : ScanState) (idx : Nat) : List Line → Nat
  | [] => start
  | l :: rest =>
    match lineScan st l with
    | none => idx
    | some st' => findEndGo start st' (idx + 1) rest

/-- `find_print_end(lines, start_idx)` from the source. -/
def find_print_end (lines : List Line) (start_idx : Nat) : Nat :=
  findEndGo start_idx initScan start_idx (lines.drop start_idx)

/-- Thread `lineScan` through a list of lines; `none` if some line hits
depth zero. -/
def runLines (st : ScanState) : List Line → Option ScanState
  | [] => some st
  | l :: ls =>
    match lineScan st l with
    | none => none
    | some st' => runLines st' ls

/-- Word character for the regex `\b` boundary (`[A-Za-z0-9_]`). -/
def isWordChar (c : Char) : Bool := c.isAlpha || c.isDigit || c = '_'

/-- After `print`, the regex `\s*\(`: skip whitespace, require `(`. -/
def spacesThenParen : List Char → Bool
  | [] => false
  | c :: cs => if c = '(' then true else if isPySpace c then spacesThenParen cs else false

/-- Does the text at this position match `print\s*\(`? -/
def startsPrintParen : List Char → Bool
  | 'p' :: 'r' :: 'i' :: 'n' :: 't' :: rest => spacesThenParen rest
  | _ => false

/-- Search for `\bprint\s*\(` at every position; `atBoundary` records
whether the previous character (if any) was a non-word character. -/
def printSearch : List Char → Bool → Bool
  | [], _ => false
  | c :: rest, atBoundary =>
    (atBoundary && startsPrintParen (c :: rest)) || printSearch rest (!isWordChar c)

/-- Python `re.search(r'\bprint\s*\(', line)` (ASCII word characters). -/
def containsPrintCall (l : Line) : Bool := printSearch l true

/-- The candidate test of the rewriting loop:
`re.search(r'\bprint\s*\(', line) and not line.strip().startswith('//')`. -/
def isCandidate (l : Line) : Bool :=
  containsPrintCall l && !(("//".toList).isPrefixOf (pyStrip l))

/-- The inserted guard-open line `f"{indent}#if DEBUG\n"`. -/
def mkOpen (n : Nat) : Line := List.replicate n ' ' ++ "#if DEBUG\n".toList

/-- The inserted guard-close line `f"{indent}#endif\n"`. -/
def mkClose (n : Nat) : Line := List.replicate n ' ' ++ "#endif\n".toList

/-- The `while i < len(lines)` loop of `wrap_prints_in_file`, with fuel.
Each iteration advances `i` by at least one, so `lines.length` fuel is
enough starting from `i = 0`; with exhausted fuel `i ≥ lines.length`
already holds and both sides return `([], 0)`. -/
def wrapLoop : Nat → List Line → Nat → List Line × Nat
  | 0, _, _ => ([], 0)
  | fuel + 1, lines, i =>
    if i < lines.length then
      let line := lines.getD i []
      if isCandidate line && !(is_already_wrapped lines i) then
        let e := find_print_end lines i
        let n := get_indentation line
        let body := (lines.drop i).take (e + 1 - i)
        let r := wrapLoop fuel lines (e + 1)
        (mkOpen n :: body ++ mkClose n :: r.1, r.2 + 1)
      else
        let r := wrapLoop fuel lines (i + 1)
        (line :: r.1, r.2)
    else ([], 0)

/-- The in-memory pipeline of `wrap_prints_in_file`: the produced
`new_lines` and `changes_made` (the file is written iff the count is
positive). -/
def wrap_prints_in_file (lines : List Line) : List Line × Nat :=
  wrapLoop lines.length lines 0

/-- Scanner state for the specification's statement-end rule: depth,
string flag, escape flag, and whether depth has ever been positive. -/
structure SpecScanState where
  paren : Int
  inStr : Bool
  esc : Bool
  everPos : Bool
deriving DecidableEq, Repr

/-- Character step for the specification's rule: same classification as
`charStep` but with no early return; records when depth goes positive. -/
def specCharStep (st : SpecScanState) (c : Char) : SpecScanState :=
  if st.esc then { st with esc := false }
  else if c = '\\' then { st with esc := true }
  else if c = '"' && !st.inStr then { st with inStr := true }
  else if c = '"' && st.inStr then { st with inStr := false }
  else if !st.inStr then
    if c = '(' then { st with paren := st.paren + 1, everPos := st.everPos || (st.paren + 1 > 0) }
    else if c = ')' then { st with paren := st.paren - 1 }
    else st
  else st

/-- Modelled from the spec: the statement-end locator rule of section 4.2,
"the scan ends at the first line where, after processing its full content,
depth has returned to exactly zero having previously exceeded zero", with
the fail-soft fallback to the start line. -/
def find_print_end_specLoop (start : Nat) (st : SpecScanState) (idx : Nat) :
    List Line → Nat
  | [] => start
  | l :: rest =>
    let st' := l.foldl specCharStep st
    if st'.everPos && st'.paren == 0 then idx
    else find_print_end_specLoop start st' (idx + 1) rest

/-- Modelled from the spec: statement-end locator with the end-of-line
depth test claimed in C4. -/
def find_print_end_spec (lines : List Line) (start_idx : Nat) : Nat :=
  find_print_end_specLoop start_idx ⟨0, false, false, false⟩ start_idx (lines.drop start_idx)

/-- Backward indices per claim C7's words: the 10 lines preceding the
candidate, clipped at the start of the file (descending). -/
def backIndicesSpec (line_idx : Nat) : List Nat :=
  (List.range' (line_idx - 10) (min line_idx 10)).reverse

/-- Forward indices per claim C7's words: the 10 lines following the
candidate, clipped at the end of the file. -/
def fwdIndicesSpec (len line_idx : Nat) : List Nat :=
  List.range' (line_idx + 1) (min len (line_idx + 11) - (line_idx + 1))

/-- Modelled from the spec: forward close-marker search over the
10-line window of claim C7. -/
def hasEndifAfterSpec (lines : List Line) (line_idx : Nat) : Bool :=
  (fwdIndicesSpec lines.length line_idx).any (fun j => closeAt lines j)

/-- Modelled from the spec: backward scan over claim C7's windows with
the same marker/declaration logic as the code. -/
def wrappedScanSpec (lines : List Line) (line_idx : Nat) : List Nat → Bool
  | [] => false
  | i :: rest =>
    let s := pyStrip (lines.getD i [])
    if openStripped s && hasEndifAfterSpec lines line_idx then true
    else if declStripped s then false
    else wrappedScanSpec lines line_idx rest

/-- Modelled from the spec: the wrap detector of claim C7, examining the
10 lines preceding (clipped at start of file) and the 10 lines following
(clipped at end of file). -/
def is_already_wrapped_spec (lines : List Line) (line_idx : Nat) : Bool :=
  wrappedScanSpec lines line_idx (backIndicesSpec line_idx)

/-- Split a line at its first `//`: text before it and, when a line
comment exists, the comment text after the `//`. -/
def splitLineComment : Line → Line × Option Line
  | [] => ([], none)
  | '/' :: '/' :: rest => ([], some rest)
  | c :: rest =>
    let r := splitLineComment rest
    (c :: r.1, r.2)

/-- The line has a `//` comment, the candidate token `print(` occurs
inside the comment text, and no candidate token occurs before the
comment (a `print\s*\(` match never straddles the `//`, since `/` is
neither a word character, part of `print`, nor whitespace). -/
def printOnlyInComment (l : Line) : Bool :=
  match splitLineComment l with
  | (bef, some aft) => !containsPrintCall bef && containsPrintCall aft
  | (_, none) => false

/-- A guard pair of the file actually encloses line `idx`: some line
`i < idx` is a guard-open marker that is not closed again before `idx`
(no guard-close marker strictly between), and some line `j > idx` is a
guard-close marker. -/
def enclosedByGuard (lines : List Line) (idx : Nat) : Bool :=
  (List.range lines.length).any (fun i =>
    decide (i < idx) && openAt lines i &&
    ((List.range lines.length).all (fun k =>
      !(decide (i < k) && decide (k < idx) && closeAt lines k))) &&
    ((List.range lines.length).any (fun j => decide (idx < j) && closeAt lines j)))

/-- A line is a guard marker line (stripped text starts with `#if DEBUG`
or `#endif`), the notion used by the detector itself. -/
def isMarkerLine (l : Line) : Bool := openStripped (pyStrip l) || closeStripped (pyStrip l)

/-- A line has the exact form of an inserted marker:
`indent + "#if DEBUG\n"` or `indent + "#endif\n"`. -/
def IsMarkerForm (l : Line) : Prop :=
  ∃ n, l = mkOpen n ∨ l = mkClose n

/-- Guard-pairing shape of an output file: a sequence of non-marker
lines and complete guard blocks.  A block is a guard-open marker,
a nonempty body of non-marker lines, and exactly one guard-close
marker before any further marker, both markers carrying the
indentation of the body's first line. -/
inductive GuardSegs : List Line → Prop
  | nil : GuardSegs []
  | plain (l : Line) (rest : List Line) :
      isMarkerLine l = false → GuardSegs rest → GuardSegs (l :: rest)
  | block (s : Line) (body rest : List Line) :
      isMarkerLine s = false → (∀ l ∈ body, isMarkerLine l = false) →
      GuardSegs rest →
      GuardSegs (mkOpen (get_indentation s) :: s ::
        (body ++ mkClose (get_indentation s) :: rest))

/-- `InsertedMarkers input output` : the output is the input with only
marker-form lines inserted — every input line occurs exactly once, in
order and byte-for-byte, and every other output line is an inserted
guard marker. -/
inductive InsertedMarkers : List Line → List Line → Prop
  | nil : InsertedMarkers [] []
  | keep (l : Line) (xs ys : List Line) :
      InsertedMarkers xs ys → InsertedMarkers (l :: xs) (l :: ys)
  | ins (m : Line) (xs ys : List Line) :
      IsMarkerForm m → InsertedMarkers xs ys → InsertedMarkers xs (m :: ys)

/-! ### Helper lemmas about the statement-end locator -/

theorem findEndGo_ge (ls : List Line) : ∀ (start : Nat) (st : ScanState) (idx : Nat),
    start ≤ idx → start ≤ findEndGo start st idx ls := by
  induction ls with
  | nil => intro start st idx _; simp [findEndGo]
  | cons l rest ih =>
    intro start st idx h
    simp only [findEndGo]
    cases hscan : lineScan st l with
    | none => exact h
    | some st' => exact ih start st' (idx + 1) (Nat.le_succ_of_le h)

theorem findEndGo_lt (ls : List Line) : ∀ (start : Nat) (st : ScanState) (idx : Nat),
    findEndGo start st idx ls = start ∨ findEndGo start st idx ls < idx + ls.length := by
  induction ls with
  | nil => intro start st idx; left; simp [findEndGo]
  | cons l rest ih =>
    intro start st idx
    simp only [findEndGo]
    cases hscan : lineScan st l with
    | none => right; simp [Nat.lt_add_of_pos_right, Nat.succ_pos]
    | some st' =>
      rcases ih start st' (idx + 1) with h | h
      · left; exact h
      · right; simp only [List.length_cons]; omega

/-- The locator never returns an index before the start line. -/
theorem find_print_end_ge (lines : List Line) (start : Nat) :
    start ≤ find_print_end lines start :=
  findEndGo_ge _ start initScan start (Nat.le_refl start)

/-- Starting inside the file, the locator returns an index inside the file. -/
theorem find_print_end_lt (lines : List Line) (start : Nat) (h : start < lines.length) :
    find_print_end lines start < lines.length := by
  rcases findEndGo_lt (lines.drop start) start initScan start with heq | hlt
  · rw [find_print_end, heq]; exact h
  · rw [find_print_end]
    have := List.length_drop start lines
    omega

theorem findEndGo_noHit (ls : List Line) : ∀ (start : Nat) (st : ScanState) (idx : Nat),
    (runLines st ls).isSome = true → findEndGo start st idx ls = start := by
  induction ls with
  | nil => intro start st idx _; rfl
  | cons l rest ih =>
    intro start st idx h
    simp only [findEndGo, runLines] at *
    cases hscan : lineScan st l with
    | none => rw [hscan] at h; simp at h
    | some st' => rw [hscan] at h; exact ih start st' (idx + 1) h

theorem findEndGo_hit_at (pre : List Line) :
    ∀ (l : Line) (suf : List Line) (start : Nat) (st st' : ScanState) (idx : Nat),
    runLines st pre = some st' → lineScan st' l = none →
    findEndGo start st idx (pre ++ l :: suf) = idx + pre.length := by
  induction pre with
  | nil =>
    intro l suf start st st' idx hrun hhit
    simp only [runLines, Option.some.injEq] at hrun
    subst hrun
    simp [findEndGo, hhit]
  | cons p ps ih =>
    intro l suf start st st' idx hrun hhit
    simp only [runLines] at hrun
    cases hscan : lineScan st p with
    | none => rw [hscan] at hrun; simp at hrun
    | some st1 =>
      rw [hscan] at hrun
      have hrun' : runLines st1 ps = some st' := hrun
      simp only [List.cons_append, findEndGo, hscan, List.append_eq]
      rw [ih l suf start st1 st' (idx + 1) hrun' hhit]
      simp only [List.length_cons]
      omega

/-! ### Helper lemmas about the rewriting loop -/

theorem getD_eq_getElem_nil {lines : List Line} {i : Nat} (h : i < lines.length) :
    lines.getD i [] = lines[i] :=
  List.getD_eq_getElem lines [] h

theorem drop_getD_cons {lines : List Line} {i : Nat} (h : i < lines.length) :
    lines.drop i = lines.getD i [] :: lines.drop (i + 1) := by
  rw [getD_eq_getElem_nil h]
  exact List.drop_eq_getElem_cons h

theorem getD_mem {lines : List Line} {i : Nat} (h : i < lines.length) :
    lines.getD i [] ∈ lines := by
  rw [getD_eq_getElem_nil h]
  exact List.getElem_mem h

theorem InsertedMarkers.appendLeft (body : List Line) {xs ys : List Line}
    (h : InsertedMarkers xs ys) : InsertedMarkers (body ++ xs) (body ++ ys) := by
  induction body with
  | nil => exact h
  | cons b bs ih => exact .keep b _ _ ih

theorem wrapLoop_inserted (lines : List Line) : ∀ (fuel i : Nat), lines.length ≤ fuel + i →
    InsertedMarkers (lines.drop i) (wrapLoop fuel lines i).1 := by
  intro fuel
  induction fuel with
  | zero =>
    intro i h
    rw [List.drop_eq_nil_of_le (by omega)]
    exact .nil
  | succ fuel ih =>
    intro i h
    by_cases hi : i < lines.length
    · by_cases hc : (isCandidate (lines.getD i []) && !(is_already_wrapped lines i)) = true
      · have hge : i ≤ find_print_end lines i := find_print_end_ge lines i
        simp only [wrapLoop, hi, if_pos, hc, if_true]
        generalize hb : (lines.drop i).take (find_print_end lines i + 1 - i) = b
        have hsplit : lines.drop i = b ++ lines.drop (find_print_end lines i + 1) := by
          rw [← hb]
          conv_lhs => rw [← List.take_append_drop (find_print_end lines i + 1 - i) (lines.drop i)]
          rw [List.drop_drop,
            show i + (find_print_end lines i + 1 - i) = find_print_end lines i + 1 by omega]
        rw [hsplit]
        refine .ins _ _ _ ⟨get_indentation (lines.getD i []), Or.inl rfl⟩ ?_
        refine InsertedMarkers.appendLeft _ ?_
        refine .ins _ _ _ ⟨get_indentation (lines.getD i []), Or.inr rfl⟩ ?_
        exact ih (find_print_end lines i + 1) (by omega)
      · simp only [wrapLoop, hi, if_pos, hc, if_false]
        rw [drop_getD_cons hi]
        exact .keep _ _ _ (ih (i + 1) (by omega))
    · rw [List.drop_eq_nil_of_le (by omega)]
      simp only [wrapLoop, hi, if_false]
      exact .nil

theorem wrapLoop_guardSegs (lines : List Line)
    (hnm : ∀ l ∈ lines, isMarkerLine l = false) :
    ∀ (fuel i : Nat), GuardSegs (wrapLoop fuel lines i).1 := by
  intro fuel
  induction fuel with
  | zero => intro i; exact .nil
  | succ fuel ih =>
    intro i
    by_cases hi : i < lines.length
    · by_cases hc : (isCandidate (lines.getD i []) && !(is_already_wrapped lines i)) = true
      · have hge : i ≤ find_print_end lines i := find_print_end_ge lines i
        have hbody : (lines.drop i).take (find_print_end lines i + 1 - i) =
            lines.getD i [] :: (lines.drop (i + 1)).take (find_print_end lines i - i) := by
          rw [drop_getD_cons hi, show find_print_end lines i + 1 - i =
            (find_print_end lines i - i) + 1 by omega]
          rfl
        simp only [wrapLoop, hi, if_pos, hc, if_true]
        rw [hbody]
        simp only [List.cons_append]
        refine GuardSegs.block (lines.getD i [])
          ((lines.drop (i + 1)).take (find_print_end lines i - i)) _
          (hnm _ (getD_mem hi)) ?_ (ih (find_print_end lines i + 1))
        intro l hl
        exact hnm l (((List.take_sublist _ _).trans (List.drop_sublist _ _)).subset hl)
      · simp only [wrapLoop, hi, if_pos, hc, if_false]
        exact .plain _ _ (hnm _ (getD_mem hi)) (ih (i + 1))
    · simp only [wrapLoop, hi, if_false]
      exact .nil

/-! ### Helper lemmas about the wrap detector -/

theorem openStripped_not_decl {s : List Char} (h : openStripped s = true) :
    declStripped s = false := by
  cases s with
  | nil => simp [openStripped, openTok, List.isPrefixOf] at h
  | cons c s' =>
    have hc : c = '#' := by
      rw [openStripped, show openTok = '#' :: "if DEBUG".toList from rfl,
        List.isPrefixOf_cons₂, Bool.and_eq_true, beq_iff_eq] at h
      exact h.1.symm
    subst hc
    simp [declStripped, show ("func ".toList) = 'f' :: "unc ".toList from rfl,
      show ("var ".toList) = 'v' :: "ar ".toList from rfl,
      show ("let ".toList) = 'l' :: "et ".toList from rfl,
      show ("class ".toList) = 'c' :: "lass ".toList from rfl,
      show ("struct ".toList) = 's' :: "truct ".toList from rfl,
      List.isPrefixOf_cons₂]

theorem wrappedScan_cons (lines : List Line) (idx i : Nat) (rest : List Nat) :
    wrappedScan lines idx (i :: rest) =
      (if openAt lines i && hasEndifAfter lines idx then true
       else if declAt lines i then false
       else wrappedScan lines idx rest) := rfl

theorem wrappedScan_decl_abort (lines : List Line) (idx : Nat) :
    ∀ (pre : List Nat) (i : Nat) (post : List Nat),
    (∀ j ∈ pre, openAt lines j = false) → declAt lines i = true →
    wrappedScan lines idx (pre ++ i :: post) = false := by
  intro pre
  induction pre with
  | nil =>
    intro i post _ hdecl
    have hopen : openAt lines i = false := by
      cases hop : openAt lines i
      · rfl
      · exfalso
        have h1 : declStripped (pyStrip (lines.getD i [])) = false := openStripped_not_decl hop
        have h2 : declStripped (pyStrip (lines.getD i [])) = true := hdecl
        rw [h1] at h2
        exact absurd h2 (by simp)
    rw [List.nil_append, wrappedScan_cons, hopen]
    simp [hdecl]
  | cons j pre' ih =>
    intro i post hpre hdecl
    have hj : openAt lines j = false := hpre j (by simp)
    rw [List.cons_append, wrappedScan_cons, hj]
    by_cases hd : declAt lines j = true
    · simp [hd]
    · simp only [Bool.not_eq_true] at hd
      simp only [hd, Bool.false_and, Bool.false_eq_true, if_false]
      exact ih i post (fun k hk => hpre k (List.mem_cons_of_mem _ hk)) hdecl

theorem if_bool_true {α : Sort u} (a b : α) : (if (true : Bool) = true then a else b) = a := rfl

theorem if_bool_false {α : Sort u} (a b : α) : (if (false : Bool) = true then a else b) = b := rfl

theorem fwdIndices_mem (len idx j : Nat) :
    j ∈ fwdIndices len idx ↔ idx < j ∧ j ≤ idx + 9 ∧ j < len := by
  rw [fwdIndices, List.mem_range'_1]
  omega

theorem hasEndifAfter_iff (lines : List Line) (idx : Nat) :
    hasEndifAfter lines idx = true ↔
      ∃ j, idx < j ∧ j ≤ idx + 9 ∧ j < lines.length ∧ closeAt lines j = true := by
  rw [hasEndifAfter, List.any_eq_true]
  constructor
  · rintro ⟨j, hm, hc⟩
    rcases (fwdIndices_mem lines.length idx j).mp hm with ⟨h1, h2, h3⟩
    exact ⟨j, h1, h2, h3, hc⟩
  · rintro ⟨j, h1, h2, h3, hc⟩
    exact ⟨j, (fwdIndices_mem lines.length idx j).mpr ⟨h1, h2, h3⟩, hc⟩

theorem wrappedScan_window (lines : List Line) (idx : Nat) :
    ∀ (m lo : Nat),
    wrappedScan lines idx ((List.range' lo m).reverse) = true ↔
      (hasEndifAfter lines idx = true ∧
       ∃ i, lo ≤ i ∧ i < lo + m ∧ openAt lines i = true ∧
         ∀ k, i < k → k < lo + m → declAt lines k = false) := by
  intro m
  induction m with
  | zero =>
    intro lo
    simp only [List.range'_zero, List.reverse_nil]
    constructor
    · intro h
      rw [show wrappedScan lines idx [] = false from rfl] at h
      exact absurd h (by decide)
    · rintro ⟨_, i, h1, h2, _⟩; omega
  | succ m ih =>
    intro lo
    rw [List.range'_1_concat, List.reverse_append]
    simp only [List.reverse_cons, List.reverse_nil, List.nil_append, List.singleton_append]
    rw [wrappedScan_cons]
    by_cases hE : hasEndifAfter lines idx = true
    · by_cases hO : openAt lines (lo + m) = true
      · rw [if_pos (show (openAt lines (lo + m) && hasEndifAfter lines idx) = true by
          rw [hO, hE]; rfl)]
        constructor
        · intro _
          exact ⟨hE, lo + m, by omega, by omega, hO,
            fun k hk1 hk2 => absurd hk1 (by omega)⟩
        · intro _; rfl
      · have hO' : openAt lines (lo + m) = false := by simpa using hO
        rw [if_neg (show ¬ (openAt lines (lo + m) && hasEndifAfter lines idx) = true by
          rw [hO']; simp)]
        by_cases hD : declAt lines (lo + m) = true
        · rw [if_pos hD]
          constructor
          · intro h; exact absurd h (by decide)
          · rintro ⟨_, i, h1, h2, hOi, hK⟩
            rcases Nat.lt_or_ge i (lo + m) with hlt | hge
            · have hcontra := hK (lo + m) (by omega) (by omega)
              rw [hD] at hcontra
              exact absurd hcontra (by decide)
            · have hieq : i = lo + m := by omega
              rw [hieq] at hOi
              rw [hOi] at hO'
              exact absurd hO' (by decide)
        · have hD' : declAt lines (lo + m) = false := by simpa using hD
          rw [if_neg (show ¬ declAt lines (lo + m) = true by rw [hD']; decide)]
          rw [ih lo]
          constructor
          · rintro ⟨hE2, i, h1, h2, hOi, hK⟩
            refine ⟨hE2, i, h1, by omega, hOi, fun k hk1 hk2 => ?_⟩
            rcases Nat.lt_or_ge k (lo + m) with hk | hk
            · exact hK k hk1 hk
            · have hkeq : k = lo + m := by omega
              rw [hkeq]; exact hD'
          · rintro ⟨hE2, i, h1, h2, hOi, hK⟩
            have hi : i < lo + m := by
              rcases Nat.lt_or_ge i (lo + m) with h | h
              · exact h
              · have hieq : i = lo + m := by omega
                rw [hieq] at hOi
                rw [hOi] at hO'
                exact absurd hO' (by decide)
            exact ⟨hE2, i, h1, hi, hOi, fun k hk1 hk2 => hK k hk1 (by omega)⟩
    · have hE' : hasEndifAfter lines idx = false := by simpa using hE
      rw [if_neg (show ¬ (openAt lines (lo + m) && hasEndifAfter lines idx) = true by
        rw [hE']; simp)]
      by_cases hD : declAt lines (lo + m) = true
      · rw [if_pos hD]
        constructor
        · intro h; exact absurd h (by decide)
        · intro h; exact absurd h.1 hE
      · rw [if_neg hD, ih lo]
        constructor
        · rintro ⟨hE2, _⟩; exact absurd hE2 hE
        · intro h; exact absurd h.1 hE

/-! ### Concrete example inputs -/

/-- A one-line file whose single line is an unguarded print call. -/
def exC1 : List Line := ["print(x)\n".toList]

/-- A three-line print statement whose string literal contains an escaped
quote and a literal closing parenthesis. -/
def exC3 : List Line :=
  ["print(\"abc \\\" ) def\n".toList, "mid\n".toList, "end\")\n".toList]

/-- A statement whose first line touches depth zero mid-line but ends the
line at positive depth; the nesting closes on the second line. -/
def exC4 : List Line := ["print(a)(b\n".toList, ")\n".toList]

/-- A file with a print call whose parenthesis is never closed. -/
def exC5 : List Line := ["print(\n".toList]

/-- The boundary-abort example: a guard-open marker, a declaration line,
an unguarded print statement, a guard-close marker. -/
def exC6 : List Line :=
  ["#if DEBUG\n".toList, "func foo() \x7b\n".toList,
   "    print(x)\n".toList, "#endif\n".toList]

/-- A correctly guarded print whose guard-open marker sits on line 0. -/
def exC7 : List Line :=
  ["#if DEBUG\n".toList, "print(x)\n".toList, "#endif\n".toList]

/-- A correctly guarded print whose guard-open marker sits on line 1. -/
def exC7w : List Line :=
  ["a\n".toList, "#if DEBUG\n".toList, "print(x)\n".toList, "#endif\n".toList]

/-- A code line whose only print( token sits inside a trailing line
comment. -/
def exC8 : Line := "x = 1 // print(y)\n".toList

/-- A file whose first line is a whole-line comment containing a print(
token. -/
def exC8w : List Line := ["// print(z)\n".toList, "a\n".toList]

/-- A file whose candidate line 4 sits after a complete guard pair
(lines 1-3) and before a stray unpaired guard-close marker (line 6). -/
def exC10 : List Line :=
  ["foo\n".toList, "#if DEBUG\n".toList, "a()\n".toList, "#endif\n".toList,
   "print(x)\n".toList, "bar\n".toList, "#endif\n".toList]

/-! ### The claims -/

/-- C1 (code bug demonstrated): the per-file transform is not idempotent.
For the one-line input file `print(x)\n` the first run wraps the print in
a guard pair, and running the transform again on that output performs one
further modification instead of zero: the backward window
`range(line_idx - 1, max(0, line_idx - 10), -1)` has an exclusive stop and
never examines line 0, so the guard-open marker on line 0 is missed,
`is_already_wrapped` reports the already guarded print as unwrapped
(contradicting its own docstring), and the print is wrapped a second time,
which also makes the second run write the file. -/
theorem c1_second_run_modifies :
    wrap_prints_in_file exC1 = ([mkOpen 0, "print(x)\n".toList, mkClose 0], 1) ∧
    (wrap_prints_in_file (wrap_prints_in_file exC1).1).2 = 1 := by
  constructor
  · decide
  · decide

/-- C2 (confirmed): for every input file with no pre-existing guard marker
lines, the output of one pass has guard-pairing shape: every guard-open
marker is followed by a nonempty run of non-marker lines and then exactly
one guard-close marker before any further marker (hence before the next
guard-open or end of file), and both markers carry the indentation of the
enclosed statement's first line. -/
theorem c2_guard_pairing (lines : List Line)
    (hnm : ∀ l ∈ lines, isMarkerLine l = false) :
    GuardSegs (wrap_prints_in_file lines).1 :=
  wrapLoop_guardSegs lines hnm lines.length 0

theorem c2_guard_pairing_witness :
    GuardSegs (wrap_prints_in_file ["print(a)\n".toList]).1 :=
  c2_guard_pairing ["print(a)\n".toList] (by decide)

/-- C3 (confirmed): escape/quote-aware nesting.  Inside a quoted region a
parenthesis never changes the depth counter and never triggers the return;
a quote immediately preceded by an unescaped backslash leaves the
quoted-region flag unchanged; and on the three-line example whose string
literal contains an escaped quote and a literal closing parenthesis,
`find_print_end` returns line index 2, the third line. -/
theorem c3_escape_quote_aware :
    (∀ st : ScanState, st.inStr = true →
      ((charStep st '(').1.paren = st.paren ∧
       (charStep st ')').1.paren = st.paren ∧ (charStep st ')').2 = false)) ∧
    (∀ st : ScanState, st.esc = false →
      (charStep (charStep st '\\').1 '"').1.inStr = st.inStr) ∧
    find_print_end exC3 0 = 2 := by
  refine ⟨?_, ?_, by decide⟩
  · intro st h
    cases st with
    | mk p instr e => cases e <;> simp_all [charStep]
  · intro st h
    cases st with
    | mk p instr e => simp_all [charStep]

theorem c3_witness :
    (charStep (⟨3, true, false⟩ : ScanState) ')').2 = false :=
  (c3_escape_quote_aware.1 ⟨3, true, false⟩ rfl).2.2

/-- C4 counterexample: on `["print(a)(b\n", ")\n"]` the code's
`find_print_end` returns line 0 — it returns as soon as the depth counter
touches zero mid-line, even though after line 0's full content the depth
is positive again — while the claim's end-of-line rule (the spec-modelled
`find_print_end_spec`) designates line 1. -/
theorem c4_counterexample :
    find_print_end exC4 0 = 0 ∧ find_print_end_spec exC4 0 = 1 := by
  constructor
  · decide
  · decide

/-- C4 (amended): `find_print_end` returns the index of the first line
during which the depth counter returns to exactly zero at a closing
parenthesis outside a quoted region (the early return), regardless of the
depth after the line's remaining characters: if no line before `idx`
(starting from `s`) hits zero and line `idx` does, the result is `idx`. -/
theorem c4_first_hit_line (lines : List Line) (s idx : Nat) (st : ScanState)
    (hs : s ≤ idx) (hidx : idx < lines.length)
    (hpre : runLines initScan ((lines.drop s).take (idx - s)) = some st)
    (hhit : lineScan st (lines.getD idx []) = none) :
    find_print_end lines s = idx := by
  have hsplit : lines.drop s =
      (lines.drop s).take (idx - s) ++ lines.getD idx [] :: lines.drop (idx + 1) := by
    conv_lhs => rw [← List.take_append_drop (idx - s) (lines.drop s)]
    congr 1
    rw [List.drop_drop, show s + (idx - s) = idx by omega]
    exact drop_getD_cons hidx
  have hlen : ((lines.drop s).take (idx - s)).length = idx - s := by
    rw [List.length_take, List.length_drop]
    omega
  show findEndGo s initScan s (lines.drop s) = idx
  rw [hsplit, findEndGo_hit_at _ _ _ _ _ _ _ hpre hhit, hlen]
  omega

theorem c4_witness : find_print_end exC4 0 = 0 :=
  c4_first_hit_line exC4 0 0 initScan (by decide) (by decide) (by decide) (by decide)

/-- C5 (confirmed): fail-soft on unterminated statements.  When the scan
from line `s` reaches end of input without the depth counter returning to
zero (no line hits), `find_print_end` returns `s` unchanged, and in that
situation the rewriting loop emits a guard block that encloses exactly the
start line. -/
theorem c5_fail_soft (lines : List Line) (s : Nat)
    (hno : (runLines initScan (lines.drop s)).isSome = true) :
    find_print_end lines s = s ∧
    (∀ fuel, s < lines.length →
      (isCandidate (lines.getD s []) && !(is_already_wrapped lines s)) = true →
      wrapLoop (fuel + 1) lines s =
        (mkOpen (get_indentation (lines.getD s [])) :: lines.getD s [] ::
          mkClose (get_indentation (lines.getD s [])) :: (wrapLoop fuel lines (s + 1)).1,
         (wrapLoop fuel lines (s + 1)).2 + 1)) := by
  have hfe : find_print_end lines s = s := findEndGo_noHit _ s initScan s hno
  refine ⟨hfe, ?_⟩
  intro fuel hs hc
  simp only [wrapLoop, hs, if_pos, hc, if_true, hfe]
  have hbody : (lines.drop s).take (s + 1 - s) = [lines.getD s []] := by
    rw [show s + 1 - s = 1 by omega, drop_getD_cons hs]
    rfl
  rw [hbody]
  rfl

theorem c5_witness : find_print_end exC5 0 = 0 ∧
    wrapLoop 1 exC5 0 =
      (mkOpen (get_indentation (exC5.getD 0 [])) :: exC5.getD 0 [] ::
        mkClose (get_indentation (exC5.getD 0 [])) :: (wrapLoop 0 exC5 1).1,
       (wrapLoop 0 exC5 1).2 + 1) := by
  have h := c5_fail_soft exC5 0 (by decide)
  exact ⟨h.1, h.2 0 (by decide) (by decide)⟩

/-- C6 (confirmed): declaration-boundary abort.  Whenever the backward
scan of `is_already_wrapped` meets a declaration line before meeting any
guard-open marker (every visited index before it is non-open), the
detector reports not wrapped; and on the boundary-abort example input —
guard-open marker, declaration line, unguarded print, guard-close
marker — the print statement is wrapped in its own new guard pair. -/
theorem c6_decl_boundary :
    (∀ (lines : List Line) (idx : Nat) (pre : List Nat) (i : Nat) (post : List Nat),
      backIndices idx = pre ++ i :: post →
      (∀ j ∈ pre, openAt lines j = false) → declAt lines i = true →
      is_already_wrapped lines idx = false) ∧
    wrap_prints_in_file exC6 =
      (["#if DEBUG\n".toList, "func foo() \x7b\n".toList, mkOpen 4,
        "    print(x)\n".toList, mkClose 4, "#endif\n".toList], 1) := by
  constructor
  · intro lines idx pre i post hsplit hpre hdecl
    show wrappedScan lines idx (backIndices idx) = false
    rw [hsplit]
    exact wrappedScan_decl_abort lines idx pre i post hpre hdecl
  · decide

theorem c6_witness : is_already_wrapped exC6 2 = false :=
  c6_decl_boundary.1 exC6 2 [] 1 [] (by decide) (by decide) (by decide)

/-- C7 counterexample: the windows are not "the 10 lines preceding,
clipped at the start of the file".  On the input whose guard-open marker
is line 0 and whose candidate is line 1, the claim's detector (the
spec-modelled `is_already_wrapped_spec`, examining lines 0..0 backward)
reports already wrapped, but the code's backward window
`range(0, max(0, -9), -1)` is empty, so `is_already_wrapped` reports not
wrapped. -/
theorem c7_counterexample :
    is_already_wrapped_spec exC7 1 = true ∧ is_already_wrapped exC7 1 = false ∧
    isCandidate (exC7.getD 1 []) = true := by
  refine ⟨by decide, by decide, by decide⟩

/-- C7 (amended): `is_already_wrapped` examines at most the 9 lines
preceding the candidate and never line 0 (indices `i` with `1 ≤ i < idx`
and `idx ≤ i + 9`), and at most the 9 lines following it (indices `j`
with `idx < j ≤ idx + 9`, clipped at end of file); it returns already
wrapped exactly when some examined preceding line is a guard-open marker
with no declaration line between it and the candidate, and some examined
following line is a guard-close marker. -/
theorem c7_window_characterization (lines : List Line) (idx : Nat) :
    is_already_wrapped lines idx = true ↔
      ((∃ i, 1 ≤ i ∧ i < idx ∧ idx ≤ i + 9 ∧ openAt lines i = true ∧
          ∀ k, i < k → k < idx → declAt lines k = false) ∧
       (∃ j, idx < j ∧ j ≤ idx + 9 ∧ j < lines.length ∧ closeAt lines j = true)) := by
  rw [show is_already_wrapped lines idx =
    wrappedScan lines idx ((List.range' ((idx - 10) + 1) ((idx - 1) - (idx - 10))).reverse)
    from rfl]
  rw [wrappedScan_window lines idx ((idx - 1) - (idx - 10)) ((idx - 10) + 1),
    hasEndifAfter_iff]
  constructor
  · rintro ⟨hE, i, h1, h2, hO, hK⟩
    exact ⟨⟨i, by omega, by omega, by omega, hO, fun k hk1 hk2 => hK k hk1 (by omega)⟩, hE⟩
  · rintro ⟨⟨i, h1, h2, h3, hO, hK⟩, hE⟩
    exact ⟨hE, i, by omega, by omega, hO, fun k hk1 hk2 => hK k hk1 (by omega)⟩

theorem c7_witness : is_already_wrapped exC7w 2 = true :=
  (c7_window_characterization exC7w 2).mpr
    ⟨⟨1, by decide, by decide, by decide, by decide,
      fun k hk1 hk2 => absurd hk1 (by omega)⟩,
     ⟨3, by decide, by decide, by decide, by decide⟩⟩

/-- C8 counterexample: a line whose only print( token occurs inside a
trailing line comment is not emitted unchanged — the rewriter only
excludes lines whose stripped text starts with `//`, so it wraps
`x = 1 // print(y)` in a new guard pair. -/
theorem c8_counterexample :
    printOnlyInComment exC8 = true ∧
    wrap_prints_in_file [exC8] = ([mkOpen 0, exC8, mkClose 0], 1) := by
  constructor
  · decide
  · decide

/-- C8 (amended): the rewriter skips a candidate line exactly when the
whole line is a line comment: whenever the cursor line's stripped text
starts with `//`, the line is emitted unchanged, no guard markers are
inserted for it, and the loop moves on (a print( token inside a trailing
comment after code is still wrapped, as the counterexample shows). -/
theorem c8_comment_start_skip (lines : List Line) (i fuel : Nat)
    (hi : i < lines.length)
    (hc : ("//".toList).isPrefixOf (pyStrip (lines.getD i [])) = true) :
    wrapLoop (fuel + 1) lines i =
      ((lines.getD i []) :: (wrapLoop fuel lines (i + 1)).1,
       (wrapLoop fuel lines (i + 1)).2) := by
  have hcand : (isCandidate (lines.getD i []) && !(is_already_wrapped lines i)) = false := by
    show ((containsPrintCall (lines.getD i []) &&
      !(("//".toList).isPrefixOf (pyStrip (lines.getD i [])))) &&
      !(is_already_wrapped lines i)) = false
    rw [hc]
    simp only [Bool.not_true, Bool.and_false, Bool.false_and]
  simp only [wrapLoop, hi, if_pos, hcand, Bool.false_eq_true, if_false]

theorem c8_witness :
    wrapLoop 2 exC8w 0 =
      ((exC8w.getD 0 []) :: (wrapLoop 1 exC8w 1).1, (wrapLoop 1 exC8w 1).2) :=
  c8_comment_start_skip exC8w 0 1 (by decide) (by decide)

/-- C9 (confirmed): frame/preservation.  The output is the input with only
inserted guard marker lines: every input line occurs exactly once, in the
original order and byte-for-byte (trailing newline included), and every
output line not coming from the input is of the exact inserted marker form
`indent + "#if DEBUG\n"` or `indent + "#endif\n"`. -/
theorem c9_frame_preservation (lines : List Line) :
    InsertedMarkers lines (wrap_prints_in_file lines).1 := by
  have h := wrapLoop_inserted lines lines.length 0 (by omega)
  rw [List.drop_zero] at h
  exact h

/-- C10 (confirmed, implicit claim): the detector accepts unpaired
markers.  On `exC10` the candidate line 4 follows a complete guard pair
and precedes a stray guard-close marker; no guard pair actually encloses
line 4 (`enclosedByGuard` is false: the only guard-open, line 1, is closed
again on line 3 before the candidate), yet `is_already_wrapped` returns
true, because it accepts any backward guard-open with no intervening
declaration line together with any forward guard-close, without checking
that they belong to one block around the candidate. -/
theorem c10_detector_accepts_unpaired :
    is_already_wrapped exC10 4 = true ∧ enclosedByGuard exC10 4 = false ∧
    isCandidate (exC10.getD 4 []) = true := by
  refine ⟨by decide, by decide, by decide⟩

end WrapDebug
